import Mathlib

/-!
# Verification of the NBA wins/losses pool tracker (src/app.py)

A shallow embedding of the pure parts of `app.py`: team-name normalization,
draft-sheet parsing (`read_draft`), ESPN standings extraction
(`extract_w_l_pct_from_entry`, `fetch_nba_standings`), the scoring tables
(`calc_tables`), and the weekly history snapshot (`upsert_history`).

Python strings are `String`, Python ints are `Int`, Python floats are modelled
as exact rationals `ℚ`.  Pandas DataFrames are lists of structures; a pandas
`sort_values` call is modelled with `List.insertionSort` (a stable sort),
`drop_duplicates(keep="first"/"last")` with explicit recursions, and a
DataFrame column that cannot carry `%` in a Lean identifier (`P%`, `W%`) is
named `Ppct` / `Wpct`.
-/

/-! ## Python string helpers -/

/-- The ASCII whitespace characters matched by Python's `str.strip()` and by
the regex class `\s` (space, tab, newline, carriage return, vertical tab,
form feed). -/
def pyWs (c : Char) : Bool :=
  c = ' ' || c = '\t' || c = '\n' || c = '\r' || c = '\x0b' || c = '\x0c'

/-- Python `s.strip()`: remove leading and trailing whitespace. -/
def pyStrip (s : String) : String :=
  ⟨((s.data.dropWhile pyWs).reverse.dropWhile pyWs).reverse⟩

/-- Scanner for `re.sub(r"\s{2,}", " ", ·)`: every maximal run of two or
more whitespace characters becomes a single `' '`; a lone whitespace
character is kept as it is.  The flag records being inside a run whose
replacement `' '` has already been emitted. -/
def collapseWsAux : Bool → List Char → List Char
  | _, [] => []
  | inRun, c :: cs =>
    if pyWs c then
      if inRun then collapseWsAux true cs
      else
        match cs with
        | c2 :: _ =>
          if pyWs c2 then ' ' :: collapseWsAux true cs
          else c :: collapseWsAux false cs
        | [] => [c]
    else c :: collapseWsAux false cs

/-- `re.sub(r"\s{2,}", " ", ·)` over the character list. -/
def collapseWsRuns (l : List Char) : List Char := collapseWsAux false l

/-- `normalize_team_name` (src/app.py:80): strip, then collapse interior
whitespace runs of length ≥ 2 to a single space. -/
def normalize_team_name (s : String) : String :=
  ⟨collapseWsRuns (pyStrip s).data⟩

/-- Python slicing `s[:n]` on a string. -/
def pyTake (n : Nat) (s : String) : String := ⟨s.data.take n⟩

/-- Python `s.lower()` (ASCII case fold, which is all the code relies on). -/
def pyLower (s : String) : String := s.toLower

/-- Python's substring test `needle in hay`. -/
def strContains (hay needle : String) : Bool :=
  (List.range (hay.data.length + 1)).any (fun i => needle.data.isPrefixOf (hay.data.drop i))

/-- Python `or` on two optional strings, treating `""` (and absence) as falsy:
used for patterns like `d.get("a") or d.get("b")`. -/
def orStr (a b : Option String) : Option String :=
  match a with
  | some s => if s = "" then b else some s
  | none => b

/-- Digits-to-number conversion, `int("...")` on a string of digits. -/
def digitsToNat (l : List Char) : Nat :=
  l.foldl (fun n c => n * 10 + (c.toNat - '0'.toNat)) 0

/-! ## Kernel-computable string order

Python compares strings lexicographically by code point, which is exactly
`String`'s order (`s₁.data < s₂.data` with `List.lt` over `Char`).  The
library decision procedure for it recurses on byte iterators and does not
reduce inside the kernel, so concrete facts could not be checked with
`decide`; `charListLt` below does reduce, and the `Decidable` instances here
route through it. -/

/-- Lexicographic comparison of character lists, by code point. -/
def charListLt : List Char → List Char → Bool
  | [], [] => false
  | [], _ :: _ => true
  | _ :: _, [] => false
  | a :: as, b :: bs =>
    if a < b then true else if b < a then false else charListLt as bs

theorem charListLt_iff :
    ∀ (l1 l2 : List Char), charListLt l1 l2 = true ↔ List.Lex (fun c d => c < d) l1 l2 := by
  intro l1
  induction l1 with
  | nil =>
    intro l2
    cases l2 with
    | nil =>
      constructor
      · intro h; exact absurd h (by simp [charListLt])
      · intro h; cases h
    | cons b bs =>
      constructor
      · intro _; exact List.Lex.nil
      · intro _; rfl
  | cons a as ih =>
    intro l2
    cases l2 with
    | nil =>
      constructor
      · intro h; exact absurd h (by simp [charListLt])
      · intro h; cases h
    | cons b bs =>
      rw [show charListLt (a :: as) (b :: bs) =
          (if a < b then true else if b < a then false else charListLt as bs) from rfl]
      by_cases hab : a < b
      · rw [if_pos hab]
        constructor
        · intro _; exact List.Lex.rel hab
        · intro _; rfl
      · rw [if_neg hab]
        by_cases hba : b < a
        · rw [if_pos hba]
          constructor
          · intro h; exact absurd h (by simp)
          · intro h
            cases h with
            | cons h3 => exact absurd hba (lt_irrefl _)
            | rel h' => exact absurd h' hab
        · have heq : a = b := le_antisymm (not_lt.mp hba) (not_lt.mp hab)
          subst heq
          rw [if_neg hba]
          rw [ih bs]
          constructor
          · intro h; exact List.Lex.cons h
          · intro h
            cases h with
            | cons h3 => exact h3
            | rel h' => exact absurd h' hab

/-- Kernel-reducible decision procedure for `String`'s `<`. -/
instance decStrLt : ∀ (a b : String), Decidable (a < b) := fun a b =>
  decidable_of_iff (charListLt a.data b.data = true)
    ((charListLt_iff a.data b.data).trans String.lt_iff_toList_lt.symm)

/-- Kernel-reducible decision procedure for `String`'s `≤`. -/
instance decStrLe : ∀ (a b : String), Decidable (a ≤ b) := fun a b =>
  decidable_of_iff (¬ b < a) not_lt

/-! ## Python rounding

Python's builtin `round` (and the pandas/numpy `Series.round`) round half to
even.  `py_round1 x` is `round(x, 1)` on the exact rational value. -/

/-- The floor of a rational, written directly on the numerator and
denominator so that it evaluates inside the kernel. -/
def ratFloor (q : ℚ) : ℤ := q.num.fdiv (q.den : ℤ)

/-- Round half to even to an integer. -/
def pyRoundHalfEven (x : ℚ) : ℤ :=
  let n := ratFloor x
  let frac := x - n
  if frac < 1/2 then n
  else if 1/2 < frac then n + 1
  else if n % 2 = 0 then n else n + 1

/-- Python `round(x, 1)`. -/
def py_round1 (x : ℚ) : ℚ := (pyRoundHalfEven (x * 10) : ℚ) / 10

/-- Python `int(q)` on a float: truncation toward zero. -/
def pyIntOfRat (q : ℚ) : ℤ := q.num.tdiv (q.den : ℤ)

/-! ## Data model

Rows of the tables handled by the program. -/

/-- A row of the Draft sheet after `read_draft` (columns
`Player, PLYR, Team, PointType, TeamAbbr` — exactly these five). -/
structure DraftRow where
  Player : String
  PLYR : String
  Team : String
  PointType : String
  TeamAbbr : String
deriving DecidableEq, Repr

/-- A row of the standings table returned by `fetch_nba_standings`
(columns `Team, Abbr, W, L, WinPct`). -/
structure StandRow where
  Team : String
  Abbr : String
  W : Int
  L : Int
  WinPct : ℚ
deriving DecidableEq, Repr

/-- A row of the per-team breakdown built by `calc_tables`.
`Ppct` is the `P%` column and `Wpct` the `W%` column. -/
structure PerTeamRow where
  PLYR : String
  P_FULL : String
  TM : String
  PT : String
  P : Int
  NP : Int
  Ppct : ℚ
  W : Int
  L : Int
  Wpct : ℚ
  GP : Int
  TMF : String
deriving DecidableEq, Repr

/-- A row of the player standings table built by `calc_tables`
(columns `PLYR, P, NP, GP, P%, TMF`). -/
structure PlayerRow where
  PLYR : String
  P : Int
  NP : Int
  GP : Int
  Ppct : ℚ
  TMF : String
deriving DecidableEq, Repr

/-- A row of the History sheet (columns
`DateUTC, WeekStart, PLYR, P, GP, NP, P%`; the sheet stores strings). -/
structure HistRow where
  DateUTC : String
  WeekStart : String
  PLYR : String
  P : String
  GP : String
  NP : String
  Ppct : String
deriving DecidableEq, Repr

/-! ## `read_draft` (src/app.py:85–105)

`ws.get_all_records()` yields one dict per sheet row, keyed by the header.
A record is modelled as an association list from column name to cell text;
a missing column and an empty cell both read back as `""`, which is exactly
how the code's `df[col] = ""` / `fillna("")` treat them. -/

/-- Sheet record: column name ↦ cell text. -/
abbrev SheetRecord := List (String × String)

/-- Column access with the `""` default the code establishes for missing
columns and empty cells. -/
def getCol (rec : SheetRecord) (c : String) : String :=
  (((rec.find? (fun p => p.1 = c)).map (fun p => p.2)).getD "")

/-- The per-row transformation of `read_draft`:
`PLYR` is truncated to six characters, `Team` is normalized, `PointType`
becomes `"Wins"` exactly when the stripped lowercased cell starts with
`"win"` and `"Losses"` otherwise, and `TeamAbbr` falls back to the legacy
`Abbr` column when empty. -/
def mkDraftRow (rec : SheetRecord) : DraftRow :=
  { Player := getCol rec "Player"
    PLYR := pyTake 6 (getCol rec "PLYR")
    Team := normalize_team_name (getCol rec "Team")
    PointType :=
      if (pyLower (pyStrip (getCol rec "PointType"))).startsWith "win"
      then "Wins" else "Losses"
    TeamAbbr :=
      if getCol rec "TeamAbbr" ≠ "" then getCol rec "TeamAbbr" else getCol rec "Abbr" }

/-- `read_draft`: the returned frame has exactly the five columns of
`DraftRow`, one row per sheet record. -/
def read_draft (recs : List SheetRecord) : List DraftRow :=
  recs.map mkDraftRow

theorem length_pyTake_le (n : Nat) (s : String) : (pyTake n s).length ≤ n := by
  simp only [pyTake, String.length, List.length_take]
  exact min_le_left _ _

/-- C8: every row produced by `read_draft` has a `PLYR` of length at most 6 and
a `PointType` that is `"Wins"` exactly when the stripped, lowercased stored
value starts with `"win"` (and `"Losses"` otherwise); the row type `DraftRow`
has exactly the five columns `Player, PLYR, Team, PointType, TeamAbbr`, even
when columns are missing from the stored sheet (a missing column reads as
`""`). -/
theorem read_draft_row_invariants (recs : List SheetRecord) (rec : SheetRecord)
    (h : rec ∈ recs) :
    mkDraftRow rec ∈ read_draft recs
    ∧ (mkDraftRow rec).PLYR.length ≤ 6
    ∧ (mkDraftRow rec).PointType =
        (if (pyLower (pyStrip (getCol rec "PointType"))).startsWith "win"
         then "Wins" else "Losses")
    ∧ ((mkDraftRow rec).PointType = "Wins" ∨ (mkDraftRow rec).PointType = "Losses") := by
  refine ⟨List.mem_map_of_mem _ h, length_pyTake_le 6 _, rfl, ?_⟩
  by_cases hw : (pyLower (pyStrip (getCol rec "PointType"))).startsWith "win" <;>
    simp [mkDraftRow, hw]

/-- Witness for C8 at a concrete sheet record with a long `PLYR`, a lowercase
`"win"` point type, and a missing `TeamAbbr` column. -/
theorem read_draft_row_invariants_witness :
    mkDraftRow [("Player", "Alice"), ("PLYR", "Alicia12"), ("Team", "Boston Celtics"),
        ("PointType", " winning ")] ∈
      read_draft [[("Player", "Alice"), ("PLYR", "Alicia12"), ("Team", "Boston Celtics"),
        ("PointType", " winning ")]]
    ∧ (mkDraftRow [("Player", "Alice"), ("PLYR", "Alicia12"), ("Team", "Boston Celtics"),
        ("PointType", " winning ")]).PLYR.length ≤ 6
    ∧ (mkDraftRow [("Player", "Alice"), ("PLYR", "Alicia12"), ("Team", "Boston Celtics"),
        ("PointType", " winning ")]).PointType =
        (if (pyLower (pyStrip (getCol [("Player", "Alice"), ("PLYR", "Alicia12"),
            ("Team", "Boston Celtics"), ("PointType", " winning ")] "PointType"))).startsWith "win"
         then "Wins" else "Losses")
    ∧ ((mkDraftRow [("Player", "Alice"), ("PLYR", "Alicia12"), ("Team", "Boston Celtics"),
        ("PointType", " winning ")]).PointType = "Wins"
      ∨ (mkDraftRow [("Player", "Alice"), ("PLYR", "Alicia12"), ("Team", "Boston Celtics"),
        ("PointType", " winning ")]).PointType = "Losses") :=
  read_draft_row_invariants _ _ (by simp)

/-! ## `extract_w_l_pct_from_entry` (src/app.py:137–178)

JSON scalar values seen by the extractor are modelled by `PyVal`
(`None`, int, float, string); a recovered number by `PyNum`. -/

/-- A Python/JSON scalar as the extractor inspects it.  `vnone` covers both a
JSON `null` and an absent key (Python `dict.get` returns `None` for both). -/
inductive PyVal where
  | vnone
  | vint (n : Int)
  | vfloat (q : ℚ)
  | vstr (s : String)
deriving DecidableEq, Repr

/-- A number recovered by the extractor, keeping Python's `int`/`float`
distinction (the code tests `isinstance(W, int)`). -/
inductive PyNum where
  | i (n : Int)
  | f (q : ℚ)
deriving DecidableEq, Repr

/-- An element of an ESPN `stats` list. -/
structure StatEntry where
  id : Option String
  name : Option String
  value : PyVal
  displayValue : PyVal
deriving DecidableEq, Repr

/-- An element of an ESPN `records` list. -/
structure RecordEntry where
  name : Option String
  type : Option String
  summary : Option String
  displayValue : Option String
deriving DecidableEq, Repr

/-- The dict key under which a stat entry is stored:
`k = s.get("id") or s.get("name"); if k: stats[k] = s`. -/
def statKeyOf (e : StatEntry) : Option String :=
  match orStr e.id e.name with
  | some s => if s = "" then none else some s
  | none => none

/-- Lookup in the `stats` dict: later list entries overwrite earlier ones,
so the last entry stored under `k` wins. -/
def statFor (stats_list : List StatEntry) (k : String) : Option StatEntry :=
  stats_list.reverse.find? (fun e => statKeyOf e == some k)

/-- The inner helper `num(k)`: prefer the numeric `value`; when `value` is
`None`, accept a numeric `displayValue` or an all-digits string
`displayValue`; otherwise recover nothing. -/
def numStat (stats_list : List StatEntry) (k : String) : Option PyNum :=
  match statFor stats_list k with
  | none => none
  | some e =>
    match e.value with
    | PyVal.vint n => some (PyNum.i n)
    | PyVal.vfloat q => some (PyNum.f q)
    | PyVal.vstr _ => none
    | PyVal.vnone =>
      match e.displayValue with
      | PyVal.vint n => some (PyNum.i n)
      | PyVal.vfloat q => some (PyNum.f q)
      | PyVal.vstr s =>
        if !s.data.isEmpty && s.data.all Char.isDigit
        then some (PyNum.i (digitsToNat s.data)) else none
      | PyVal.vnone => none

/-- The regex `^\s*(\d+)\s*-\s*(\d+)` applied to a record summary. -/
def parseRecordSummary (s : String) : Option (Nat × Nat) :=
  let l := s.data.dropWhile pyWs
  let d1 := l.takeWhile Char.isDigit
  if d1.isEmpty then none
  else
    match (l.dropWhile Char.isDigit).dropWhile pyWs with
    | '-' :: rest =>
      let d2 := (rest.dropWhile pyWs).takeWhile Char.isDigit
      if d2.isEmpty then none else some (digitsToNat d1, digitsToNat d2)
    | _ => none

/-- Whether a record entry's lowercased `name`/`type` mentions
`overall`, `total` or `regular`. -/
def recordMatches (r : RecordEntry) : Bool :=
  ["overall", "total", "regular"].any
    (fun k => strContains (pyLower ((orStr r.name r.type).getD "")) k)

/-- The record-list fallback loop: scan for a matching record whose summary
parses as `W-L`; a matching record with an unparsable summary is skipped
(the `break` sits inside `if m:`). -/
def recordsWL : List RecordEntry → Option (Nat × Nat)
  | [] => none
  | r :: rest =>
    if recordMatches r then
      match parseRecordSummary (((orStr r.summary r.displayValue).getD "")) with
      | some wl => some wl
      | none => recordsWL rest
    else recordsWL rest

/-- `isinstance(x, int)` for an optional recovered number. -/
def isPyInt : Option PyNum → Bool
  | some (PyNum.i _) => true
  | _ => false

/-- The integer of an int-instance (only used under `isPyInt`). -/
def pyIntVal : Option PyNum → Int
  | some (PyNum.i n) => n
  | _ => 0

/-- Python `x == 0` on a recovered number. -/
def pyNumIsZero : PyNum → Bool
  | PyNum.i n => n = 0
  | PyNum.f q => q = 0

/-- `int(x)` on a recovered number (floats truncate toward zero). -/
def pyIntOfNum : PyNum → Int
  | PyNum.i n => n
  | PyNum.f q => pyIntOfRat q

/-- `float(x)` on a recovered number. -/
def pyFloatOfNum : PyNum → ℚ
  | PyNum.i n => (n : ℚ)
  | PyNum.f q => q

/-- Stage one of `extract_w_l_pct_from_entry` (src/app.py:156–170): recover
`W` and `L` from the stats dict, falling back to the records list when either
is still missing (the fallback overwrites both). -/
def extractWL (stats_list : List StatEntry) (records_list : List RecordEntry) :
    Option PyNum × Option PyNum :=
  let W0 := numStat stats_list "wins"
  let L0 := numStat stats_list "losses"
  if (W0.isNone || L0.isNone) && !records_list.isEmpty then
    match recordsWL records_list with
    | some wl => (some (PyNum.i wl.1), some (PyNum.i wl.2))
    | none => (W0, L0)
  else (W0, L0)

/-- The win-percentage lookup (src/app.py:158–160):
`winPercent`, then `winPercentV2`. -/
def extractWPCT0 (stats_list : List StatEntry) : Option PyNum :=
  match numStat stats_list "winPercent" with
  | some x => some x
  | none => numStat stats_list "winPercentV2"

/-- `extract_w_l_pct_from_entry` (src/app.py:137–178).  The `team_dict`
parameter of the source is unused there and omitted here.  Always returns a
triple `(W, L, WPCT)` of two integers and a float (src/app.py:175–178: the
final coercions default a missing `W`/`L` to `0` and a missing `WPCT` to the
ratio `W/(W+L)` or `0.0`). -/
def extract_w_l_pct_from_entry (stats_list : List StatEntry)
    (records_list : List RecordEntry) : Int × Int × ℚ :=
  let W1 := (extractWL stats_list records_list).1
  let L1 := (extractWL stats_list records_list).2
  let WPCT0 := extractWPCT0 stats_list
  let WPCT1 :=
    if (WPCT0.isNone || (match WPCT0 with | some x => pyNumIsZero x | none => false))
        && isPyInt W1 && isPyInt L1 && (0 < pyIntVal W1 + pyIntVal L1 : Bool) then
      some (PyNum.f ((pyIntVal W1 : ℚ) / ((pyIntVal W1 + pyIntVal L1 : Int) : ℚ)))
    else WPCT0
  let W := match W1 with
    | some x => pyIntOfNum x
    | none => 0
  let L := match L1 with
    | some x => pyIntOfNum x
    | none => 0
  let WPCT := match WPCT1 with
    | some x => pyFloatOfNum x
    | none => if 0 < W + L then (W : ℚ) / ((W + L : Int) : ℚ) else 0
  (W, L, WPCT)

theorem extractWL_eq_none (stats_list : List StatEntry) (records_list : List RecordEntry)
    (hW : numStat stats_list "wins" = none) (hL : numStat stats_list "losses" = none)
    (hR : recordsWL records_list = none) :
    extractWL stats_list records_list = (none, none) := by
  simp only [extractWL, hW, hL, hR, Option.isNone_none, Bool.true_or, Bool.true_and]
  split <;> rfl

/-- C5: the extractor is total — it returns a triple of integers `W`, `L` and a
rational (Python float) `WPCT` for every input.  When wins and losses are
recoverable from neither the stats list nor the records list, it returns
`W = 0` and `L = 0`; when no win percentage is recoverable (neither
`winPercent` nor `winPercentV2` yields a number), the returned `WPCT` is
`W / (W + L)` if `W + L > 0` and `0.0` otherwise. -/
theorem extract_w_l_pct_total_defaults (stats_list : List StatEntry)
    (records_list : List RecordEntry) :
    ((numStat stats_list "wins" = none ∧ numStat stats_list "losses" = none ∧
        recordsWL records_list = none) →
      (extract_w_l_pct_from_entry stats_list records_list).1 = 0 ∧
      (extract_w_l_pct_from_entry stats_list records_list).2.1 = 0)
    ∧ ((numStat stats_list "winPercent" = none ∧
        numStat stats_list "winPercentV2" = none) →
      (extract_w_l_pct_from_entry stats_list records_list).2.2 =
        (if 0 < (extract_w_l_pct_from_entry stats_list records_list).1 +
            (extract_w_l_pct_from_entry stats_list records_list).2.1 then
          ((extract_w_l_pct_from_entry stats_list records_list).1 : ℚ) /
            (((extract_w_l_pct_from_entry stats_list records_list).1 +
              (extract_w_l_pct_from_entry stats_list records_list).2.1 : Int) : ℚ)
        else 0)) := by
  constructor
  · rintro ⟨hW, hL, hR⟩
    have h := extractWL_eq_none stats_list records_list hW hL hR
    simp [extract_w_l_pct_from_entry, h]
  · rintro ⟨hP, hP2⟩
    have h0 : extractWPCT0 stats_list = none := by simp [extractWPCT0, hP, hP2]
    simp only [extract_w_l_pct_from_entry, h0, Option.isNone_none, Bool.true_or,
      Bool.true_and]
    rcases hW1 : (extractWL stats_list records_list).1 with _ | w <;>
      rcases hL1 : (extractWL stats_list records_list).2 with _ | l <;>
      first
        | rfl
        | (cases w <;> try cases l) <;>
          simp only [isPyInt, pyIntVal, Bool.false_and, Bool.and_false, Bool.true_and,
            Bool.and_true, if_false, Bool.false_eq_true, ite_false] <;>
          first
            | rfl
            | (rename_i n m
               by_cases hnm : (0 : Int) < n + m <;>
                 simp [hnm, pyFloatOfNum, pyIntOfNum])

/-- Witness for C5 at empty stats and records lists: nothing is recoverable,
so the result is `(0, 0, 0)`. -/
theorem extract_w_l_pct_total_defaults_witness :
    ((numStat [] "wins" = none ∧ numStat [] "losses" = none ∧ recordsWL [] = none) →
      (extract_w_l_pct_from_entry [] []).1 = 0 ∧
      (extract_w_l_pct_from_entry [] []).2.1 = 0)
    ∧ ((numStat [] "winPercent" = none ∧ numStat [] "winPercentV2" = none) →
      (extract_w_l_pct_from_entry [] []).2.2 =
        (if 0 < (extract_w_l_pct_from_entry [] []).1 +
            (extract_w_l_pct_from_entry [] []).2.1 then
          ((extract_w_l_pct_from_entry [] []).1 : ℚ) /
            (((extract_w_l_pct_from_entry [] []).1 +
              (extract_w_l_pct_from_entry [] []).2.1 : Int) : ℚ)
        else 0)) :=
  extract_w_l_pct_total_defaults [] []

/-! ## `fetch_nba_standings` (src/app.py:134–239)

The final table construction of src/app.py:231–236 is
`sort_values(["Team", "GP"], ascending=[True, False])`,
`drop_duplicates("Team", keep="first")`, then `sort_values("Team")`.
A pandas sort is modelled with `List.insertionSort`; pandas string order
is code-point lexicographic order, which is `String`'s order. -/

/-- The two-key sort order of src/app.py:234: `Team` ascending,
`GP = W + L` descending. -/
def standLe (a b : StandRow) : Prop :=
  a.Team < b.Team ∨ (a.Team = b.Team ∧ b.W + b.L ≤ a.W + a.L)

instance : DecidableRel standLe := fun a b => by
  unfold standLe; infer_instance

instance : IsTotal StandRow standLe where
  total a b := by
    rcases lt_trichotomy a.Team b.Team with h | h | h
    · exact Or.inl (Or.inl h)
    · rcases le_total (b.W + b.L) (a.W + a.L) with hg | hg
      · exact Or.inl (Or.inr ⟨h, hg⟩)
      · exact Or.inr (Or.inr ⟨h.symm, hg⟩)
    · exact Or.inr (Or.inl h)

instance : IsTrans StandRow standLe where
  trans a b c hab hbc := by
    rcases hab with h1 | ⟨e1, g1⟩ <;> rcases hbc with h2 | ⟨e2, g2⟩
    · exact Or.inl (h1.trans h2)
    · exact Or.inl (lt_of_lt_of_le h1 (le_of_eq e2))
    · exact Or.inl (lt_of_le_of_lt (le_of_eq e1) h2)
    · exact Or.inr ⟨e1.trans e2, g2.trans g1⟩

/-- The single-key order of the final `sort_values("Team")`. -/
def teamLe (a b : StandRow) : Prop := a.Team ≤ b.Team

instance : DecidableRel teamLe := fun a b => by
  unfold teamLe; infer_instance

instance : IsTotal StandRow teamLe where
  total a b := le_total a.Team b.Team

instance : IsTrans StandRow teamLe where
  trans _ _ _ h1 h2 := le_trans h1 h2

/-- `DataFrame.drop_duplicates(subset=key, keep="first")`: keep the first row
carrying each key. -/
def dropDupFirst {α κ : Type} (key : α → κ) [DecidableEq κ] : List α → List α
  | [] => []
  | a :: l => a :: dropDupFirst key (l.filter (fun b => key b != key a))
termination_by l => l.length
decreasing_by
  simp only [List.length_cons]
  exact Nat.lt_succ_of_le (List.length_filter_le _ l)

theorem mem_of_mem_dropDupFirst {α κ : Type} (key : α → κ) [DecidableEq κ] :
    ∀ (l : List α) (x : α), x ∈ dropDupFirst key l → x ∈ l
  | [], x, h => by simp [dropDupFirst] at h
  | a :: l, x, h => by
    rw [dropDupFirst] at h
    rcases List.mem_cons.mp h with rfl | h2
    · exact List.mem_cons_self _ _
    · exact List.mem_cons_of_mem a
        (List.mem_of_mem_filter (mem_of_mem_dropDupFirst key _ x h2))
termination_by l => l.length
decreasing_by
  simp only [List.length_cons]
  exact Nat.lt_succ_of_le (List.length_filter_le _ l)

theorem pairwise_ne_dropDupFirst {α κ : Type} (key : α → κ) [DecidableEq κ] :
    ∀ (l : List α), (dropDupFirst key l).Pairwise (fun a b => key a ≠ key b)
  | [] => by simp [dropDupFirst]
  | a :: l => by
    rw [dropDupFirst]
    refine List.pairwise_cons.mpr ⟨?_, pairwise_ne_dropDupFirst key _⟩
    intro b hb
    have hbf := mem_of_mem_dropDupFirst key _ b hb
    have hne := List.of_mem_filter hbf
    simp only [bne_iff_ne, ne_eq] at hne
    exact fun h => hne h.symm
termination_by l => l.length
decreasing_by
  simp only [List.length_cons]
  exact Nat.lt_succ_of_le (List.length_filter_le _ l)

theorem exists_mem_dropDupFirst {α κ : Type} (key : α → κ) [DecidableEq κ] :
    ∀ (l : List α) (x : α), x ∈ l → ∃ y ∈ dropDupFirst key l, key y = key x
  | [], x, h => absurd h (List.not_mem_nil x)
  | a :: l, x, h => by
    rw [dropDupFirst]
    by_cases hk : key x = key a
    · exact ⟨a, List.mem_cons_self _ _, hk.symm⟩
    · rcases List.mem_cons.mp h with rfl | hx
      · exact absurd rfl hk
      · have hxf : x ∈ l.filter (fun b => key b != key a) :=
          List.mem_filter.mpr ⟨hx, by simpa using hk⟩
        obtain ⟨y, hy, hky⟩ := exists_mem_dropDupFirst key _ x hxf
        exact ⟨y, List.mem_cons_of_mem _ hy, hky⟩
termination_by l => l.length
decreasing_by
  simp only [List.length_cons]
  exact Nat.lt_succ_of_le (List.length_filter_le _ l)

/-- In a list sorted by (`Team` asc, `GP` desc), each row kept by
`drop_duplicates("Team", keep="first")` has maximal `W + L` among the rows
carrying its team name. -/
theorem dropDupFirst_max_GP :
    ∀ (l : List StandRow), l.Pairwise standLe →
      ∀ r' ∈ dropDupFirst (fun t => t.Team) l, ∀ r'' ∈ l, r''.Team = r'.Team →
        r''.W + r''.L ≤ r'.W + r'.L
  | [], _, r', hr', _, hr'', _ => by simp [dropDupFirst] at hr'
  | a :: l, hp, r', hr', r'', hr'', heq => by
    rw [dropDupFirst] at hr'
    obtain ⟨ha, hpt⟩ := List.pairwise_cons.mp hp
    rcases List.mem_cons.mp hr' with rfl | hr'd
    · rcases List.mem_cons.mp hr'' with rfl | hr''t
      · exact le_refl _
      · rcases ha r'' hr''t with hlt | ⟨_, hle⟩
        · rw [heq] at hlt; exact absurd hlt (lt_irrefl _)
        · exact hle
    · have hr'f := mem_of_mem_dropDupFirst _ _ _ hr'd
      have hr'ne : ¬ (r'.Team = a.Team) := by
        have := List.of_mem_filter hr'f
        simpa using this
      rcases List.mem_cons.mp hr'' with rfl | hr''t
      · exact absurd heq.symm hr'ne
      · have hr''f : r'' ∈ l.filter (fun b => b.Team != a.Team) :=
          List.mem_filter.mpr ⟨hr''t, by simpa using heq ▸ hr'ne⟩
        exact dropDupFirst_max_GP _ (hpt.filter _) r' hr'd r'' hr''f heq
termination_by l => l.length
decreasing_by
  simp only [List.length_cons]
  exact Nat.lt_succ_of_le (List.length_filter_le _ l)

/-- src/app.py:231–236: build the returned standings table from the parsed
rows — sort by (`Team`, `GP` desc), keep the first row per team, sort by
`Team`. -/
def postprocessStandings (rows : List StandRow) : List StandRow :=
  List.insertionSort teamLe
    (dropDupFirst (fun t => t.Team) (List.insertionSort standLe rows))

/-- Whether one endpoint attempt yields at least one team row.  An attempt is
`Except.error ()` when any exception was raised while fetching or parsing that
URL (the bare `except Exception: continue` of src/app.py:237), and
`Except.ok rows` when the shape-sniffing produced the row list `rows`
(possibly empty, when no recognized JSON shape matched). -/
def yieldsRows : Except Unit (List StandRow) → Bool
  | Except.ok rows => !rows.isEmpty
  | Except.error _ => false

/-- `fetch_nba_standings` (src/app.py:134–239) over the per-endpoint
outcomes: try each URL in order; an exception or an empty row list moves on
to the next URL; the first non-empty row list is postprocessed and returned
(`return df...` at src/app.py:236); if no endpoint yields rows, the function
raises `RuntimeError("Could not parse NBA standings from ESPN.")`. -/
def fetch_nba_standings : List (Except Unit (List StandRow)) → Except String (List StandRow)
  | [] => Except.error "Could not parse NBA standings from ESPN."
  | Except.error _ :: rest => fetch_nba_standings rest
  | Except.ok rows :: rest =>
    if rows.isEmpty then fetch_nba_standings rest
    else Except.ok (postprocessStandings rows)

/-- Whether a call returned normally (`Except.ok`) or raised. -/
def exceptIsOk {ε α : Type} : Except ε α → Bool
  | Except.ok _ => true
  | Except.error _ => false

/-- C4: `fetch_nba_standings` returns a standings table (of rows with the
five columns `Team, Abbr, W, L, WinPct`, the fields of `StandRow`) exactly
when some endpoint attempt yields at least one team row, and raises exactly
when every attempt fails to yield rows; moreover the table returned is built
from the first attempt that yields rows — any earlier exception or empty
parse just moves on to the next endpoint.  (The HTTP GET transport itself is
environmental and is modelled by the list of per-endpoint outcomes.) -/
theorem fetch_nba_standings_ok_iff (attempts : List (Except Unit (List StandRow))) :
    (exceptIsOk (fetch_nba_standings attempts) = attempts.any yieldsRows)
    ∧ (∀ pre rows post, attempts = pre ++ Except.ok rows :: post → rows ≠ [] →
        (∀ a ∈ pre, yieldsRows a = false) →
        fetch_nba_standings attempts = Except.ok (postprocessStandings rows)) := by
  constructor
  · induction attempts with
    | nil => rfl
    | cons a rest ih =>
      cases a with
      | error e => simpa [fetch_nba_standings, yieldsRows] using ih
      | ok rows =>
        by_cases hemp : rows.isEmpty
        · simpa [fetch_nba_standings, yieldsRows, hemp] using ih
        · simp [fetch_nba_standings, yieldsRows, hemp, exceptIsOk]
  · intro pre
    induction pre generalizing attempts with
    | nil =>
      intro rows post heq hne _
      subst heq
      simp only [List.nil_append, fetch_nba_standings]
      rw [if_neg (by simpa [List.isEmpty_iff] using hne)]
    | cons p pre ih =>
      intro rows post heq hne hpre
      subst heq
      cases p with
      | error e =>
        simpa [fetch_nba_standings] using
          ih _ rows post rfl hne (fun a ha => hpre a (List.mem_cons_of_mem _ ha))
      | ok rows' =>
        have hyp := hpre (Except.ok rows') (List.mem_cons_self _ _)
        simp only [yieldsRows, Bool.not_eq_false'] at hyp
        simp only [List.cons_append, fetch_nba_standings, hyp, if_true]
        exact ih _ rows post rfl hne (fun a ha => hpre a (List.mem_cons_of_mem _ ha))

/-- Witness for C4: one endpoint raises, one parses no rows, the third yields
a row; the call returns the postprocessed table of the third. -/
theorem fetch_nba_standings_ok_iff_witness :
    fetch_nba_standings
        [Except.error (), Except.ok ([] : List StandRow),
          Except.ok [StandRow.mk "Boston Celtics" "BOS" 10 2 (5/6)]] =
      Except.ok (postprocessStandings [StandRow.mk "Boston Celtics" "BOS" 10 2 (5/6)]) :=
  (fetch_nba_standings_ok_iff
      [Except.error (), Except.ok ([] : List StandRow),
        Except.ok [StandRow.mk "Boston Celtics" "BOS" 10 2 (5/6)]]).2
    [Except.error (), Except.ok ([] : List StandRow)]
    [StandRow.mk "Boston Celtics" "BOS" 10 2 (5/6)] [] rfl (by decide) (by decide)

/-- C9: the table built by `fetch_nba_standings` from the parsed rows
(src/app.py:231–236) has pairwise-distinct team names in ascending order,
and for every parsed row there is a returned row with the same team name,
itself one of the parsed rows, whose `W + L` is maximal among the parsed
rows carrying that team name. -/
theorem standings_table_sorted_dedup_max (rows : List StandRow) :
    ((postprocessStandings rows).map (fun t => t.Team)).Pairwise (fun a b => a < b)
    ∧ ∀ r ∈ rows, ∃ r', r' ∈ postprocessStandings rows ∧ r' ∈ rows ∧
        r'.Team = r.Team ∧
        ∀ r'' ∈ rows, r''.Team = r.Team → r''.W + r''.L ≤ r'.W + r'.L := by
  have hs1 : (List.insertionSort standLe rows).Pairwise standLe :=
    List.sorted_insertionSort standLe rows
  have perm1 : (List.insertionSort standLe rows).Perm rows :=
    List.perm_insertionSort standLe rows
  have permF :
      (postprocessStandings rows).Perm
        (dropDupFirst (fun t => t.Team) (List.insertionSort standLe rows)) :=
    List.perm_insertionSort teamLe _
  constructor
  · have hd_ne :
        (dropDupFirst (fun t => t.Team) (List.insertionSort standLe rows)).Pairwise
          (fun a b : StandRow => a.Team ≠ b.Team) :=
      pairwise_ne_dropDupFirst (fun t : StandRow => t.Team) _
    have hsorted : (postprocessStandings rows).Pairwise teamLe :=
      List.sorted_insertionSort teamLe _
    have hne_out : (postprocessStandings rows).Pairwise (fun a b : StandRow => a.Team ≠ b.Team) :=
      (permF.pairwise_iff (fun h => Ne.symm h)).mpr hd_ne
    exact List.pairwise_map.mpr
      ((hsorted.and hne_out).imp (fun h => lt_of_le_of_ne h.1 h.2))
  · intro r hr
    have hr1 : r ∈ List.insertionSort standLe rows := perm1.mem_iff.mpr hr
    obtain ⟨r', hr'd, hkey⟩ :=
      exists_mem_dropDupFirst (fun t : StandRow => t.Team) _ r hr1
    refine ⟨r', permF.mem_iff.mpr hr'd,
      perm1.mem_iff.mp (mem_of_mem_dropDupFirst _ _ _ hr'd), hkey, ?_⟩
    intro r'' hr'' heq
    exact dropDupFirst_max_GP _ hs1 r' hr'd r'' (perm1.mem_iff.mpr hr'')
      (heq.trans hkey.symm)

/-- Witness for C9 at a parse with a duplicated team name: the duplicate with
the larger `W + L` is the one kept. -/
theorem standings_table_sorted_dedup_max_witness :
    ∃ r', r' ∈ postprocessStandings
          [StandRow.mk "Atlanta Hawks" "ATL" 1 2 (1/3),
            StandRow.mk "Atlanta Hawks" "ATL" 5 0 1,
            StandRow.mk "Boston Celtics" "BOS" 3 1 (3/4)]
      ∧ r' ∈ [StandRow.mk "Atlanta Hawks" "ATL" 1 2 (1/3),
            StandRow.mk "Atlanta Hawks" "ATL" 5 0 1,
            StandRow.mk "Boston Celtics" "BOS" 3 1 (3/4)]
      ∧ r'.Team = (StandRow.mk "Atlanta Hawks" "ATL" 1 2 (1/3)).Team
      ∧ ∀ r'' ∈ [StandRow.mk "Atlanta Hawks" "ATL" 1 2 (1/3),
            StandRow.mk "Atlanta Hawks" "ATL" 5 0 1,
            StandRow.mk "Boston Celtics" "BOS" 3 1 (3/4)],
          r''.Team = (StandRow.mk "Atlanta Hawks" "ATL" 1 2 (1/3)).Team →
          r''.W + r''.L ≤ r'.W + r'.L :=
  (standings_table_sorted_dedup_max
      [StandRow.mk "Atlanta Hawks" "ATL" 1 2 (1/3),
        StandRow.mk "Atlanta Hawks" "ATL" 5 0 1,
        StandRow.mk "Boston Celtics" "BOS" 3 1 (3/4)]).2
    (StandRow.mk "Atlanta Hawks" "ATL" 1 2 (1/3)) (by simp)

/-! ## `calc_tables` (src/app.py:295–353)

`team_stats = standings.set_index("TeamNorm")[["W","L","WinPct"]].to_dict(orient="index")`
builds a dict keyed by the normalized team name in which a later row
overwrites an earlier one; `to_dict(orient="index")` raises a `ValueError`
when the normalized names are not pairwise distinct, so `calc_tables` is
modelled as returning `none` in that case (`Option`), and `some` of the
(player table, per-team table) pair otherwise.  `abbr_map` is the analogous
`Series.to_dict`, which also lets the last duplicate win. -/

/-- Dict lookup for `team_stats` / `abbr_map`: the last standings row whose
normalized `Team` equals the key. -/
def teamStatsLookup (standings : List StandRow) (key : String) : Option StandRow :=
  standings.reverse.find? (fun t => normalize_team_name t.Team == key)

/-- The per-draft-row record built by the loop of src/app.py:301–333. -/
def mkPerTeamRow (standings : List StandRow) (r : DraftRow) : PerTeamRow :=
  let player := r.Player
  let plyr := if r.PLYR = "" then (if player = "" then "" else pyTake 6 player) else r.PLYR
  let team := r.Team
  let team_key := normalize_team_name team
  let pt := r.PointType
  let pt_short := if pt = "Wins" then "W" else "L"
  let WL : Int × Int :=
    match teamStatsLookup standings team_key with
    | none => (0, 0)
    | some s => (s.W, s.L)
  let W := WL.1
  let L := WL.2
  let GP := W + L
  let points := if pt = "Wins" then W else L
  let non_points := if pt = "Wins" then L else W
  let tm_abbr :=
    if pyStrip r.TeamAbbr ≠ "" then pyStrip r.TeamAbbr
    else match teamStatsLookup standings team_key with
      | some s => s.Abbr
      | none => ""
  { PLYR := plyr, P_FULL := player, TM := tm_abbr, PT := pt_short,
    P := points, NP := non_points,
    Ppct := if GP = 0 then 0 else py_round1 ((points : ℚ) / (GP : ℚ) * 100),
    W := W, L := L,
    Wpct := if GP = 0 then 0 else py_round1 ((W : ℚ) / (GP : ℚ) * 100),
    GP := GP, TMF := team }

/-- The group keys of `per_team_df.groupby("PLYR")` in pandas order:
the distinct `PLYR` values, sorted ascending. -/
def uniquePlyrs (rows : List PerTeamRow) : List String :=
  List.insertionSort (fun a b : String => a ≤ b) ((rows.map (fun r => r.PLYR)).dedup)

instance : DecidableRel (fun a b : String => a ≤ b) := fun _ _ => inferInstance

/-- One row of the aggregated player table (src/app.py:340–347): sums of
`P`, `NP`, `GP` over the group, `P% = round(P / GP * 100, 1)` with `0.0` for
`GP = 0`, and `TMF` the comma-joined non-empty `TM` values of the group. -/
def mkPlayerRow (rows : List PerTeamRow) (k : String) : PlayerRow :=
  let grp := rows.filter (fun r => r.PLYR == k)
  let P := (grp.map (fun r => r.P)).sum
  let NP := (grp.map (fun r => r.NP)).sum
  let GP := (grp.map (fun r => r.GP)).sum
  { PLYR := k, P := P, NP := NP, GP := GP,
    Ppct := if GP = 0 then 0 else py_round1 ((P : ℚ) / (GP : ℚ) * 100),
    TMF := String.intercalate ", " ((grp.map (fun r => r.TM)).filter (fun t => t ≠ "")) }

/-- The player-table sort of src/app.py:348:
`sort_values(["P%", "P", "GP"], ascending=[False, False, False])`. -/
def playerSortLe (a b : PlayerRow) : Prop :=
  b.Ppct < a.Ppct ∨ (a.Ppct = b.Ppct ∧ (b.P < a.P ∨ (a.P = b.P ∧ b.GP ≤ a.GP)))

instance : DecidableRel playerSortLe := fun a b => by
  unfold playerSortLe; infer_instance

/-- The per-team-table sort of src/app.py:351:
`sort_values(["P%", "P", "W"], ascending=[False, False, False])`. -/
def perTeamSortLe (a b : PerTeamRow) : Prop :=
  b.Ppct < a.Ppct ∨ (a.Ppct = b.Ppct ∧ (b.P < a.P ∨ (a.P = b.P ∧ b.W ≤ a.W)))

instance : DecidableRel perTeamSortLe := fun a b => by
  unfold perTeamSortLe; infer_instance

/-- `calc_tables` (src/app.py:295–353): returns
`some (player_table, per_team_table)`, or `none` for the `ValueError`
raised by `to_dict(orient="index")` when two standings rows share a
normalized team name. -/
def calc_tables (draft_df : List DraftRow) (standings : List StandRow) :
    Option (List PlayerRow × List PerTeamRow) :=
  if (standings.map (fun t => normalize_team_name t.Team)).Nodup then
    let per_team := draft_df.map (mkPerTeamRow standings)
    let player_table :=
      if per_team.isEmpty then []
      else List.insertionSort playerSortLe
        ((uniquePlyrs per_team).map (mkPlayerRow per_team))
    let per_team_sorted :=
      if per_team.isEmpty then per_team
      else List.insertionSort perTeamSortLe per_team
    some (player_table, per_team_sorted)
  else none

/-- C1: for every draft row whose normalized team name joins to a standings
row (the row the `team_stats` dict yields for that key), the per-team row
built for it classifies points by the row's `PointType`: `P` is the team's
`W` for `"Wins"` and its `L` for `"Losses"`, `NP` is the other one, and
`GP = W + L`; that row is in the per-team table returned by `calc_tables`. -/
theorem calc_tables_point_classification
    (draft_df : List DraftRow) (standings : List StandRow)
    (out : List PlayerRow × List PerTeamRow)
    (hout : calc_tables draft_df standings = some out)
    (r : DraftRow) (hr : r ∈ draft_df) (s : StandRow)
    (hs : teamStatsLookup standings (normalize_team_name r.Team) = some s) :
    mkPerTeamRow standings r ∈ out.2
    ∧ (r.PointType = "Wins" →
        (mkPerTeamRow standings r).P = s.W ∧ (mkPerTeamRow standings r).NP = s.L)
    ∧ (r.PointType = "Losses" →
        (mkPerTeamRow standings r).P = s.L ∧ (mkPerTeamRow standings r).NP = s.W)
    ∧ (mkPerTeamRow standings r).GP = s.W + s.L := by
  rw [calc_tables] at hout
  split at hout
  case isTrue hnodup =>
    injection hout with hout
    subst hout
    have hne : (draft_df.map (mkPerTeamRow standings)).isEmpty = false := by
      cases draft_df with
      | nil => exact absurd hr (List.not_mem_nil r)
      | cons a l => rfl
    refine ⟨?_, ?_, ?_, ?_⟩
    · simp only [hne, Bool.false_eq_true, if_false]
      exact (List.mem_insertionSort perTeamSortLe).mpr (List.mem_map_of_mem _ hr)
    · intro hw
      constructor <;> simp [mkPerTeamRow, hs, hw]
    · intro hw
      constructor <;> simp [mkPerTeamRow, hs, hw]
    · simp [mkPerTeamRow, hs]
  case isFalse h => exact absurd hout (by simp)

/-- Witness for C1 at a one-row draft joined to a one-row standings table. -/
theorem calc_tables_point_classification_witness :
    mkPerTeamRow [StandRow.mk "Boston Celtics" "BOS" 0 0 0]
        (DraftRow.mk "Alice" "ALI" "Boston Celtics" "Wins" "BOS") ∈
      ([PlayerRow.mk "ALI" 0 0 0 0 "BOS"],
        [PerTeamRow.mk "ALI" "Alice" "BOS" "W" 0 0 0 0 0 0 0 "Boston Celtics"]).2
    ∧ ((DraftRow.mk "Alice" "ALI" "Boston Celtics" "Wins" "BOS").PointType = "Wins" →
        (mkPerTeamRow [StandRow.mk "Boston Celtics" "BOS" 0 0 0]
          (DraftRow.mk "Alice" "ALI" "Boston Celtics" "Wins" "BOS")).P =
            (StandRow.mk "Boston Celtics" "BOS" 0 0 0).W
        ∧ (mkPerTeamRow [StandRow.mk "Boston Celtics" "BOS" 0 0 0]
          (DraftRow.mk "Alice" "ALI" "Boston Celtics" "Wins" "BOS")).NP =
            (StandRow.mk "Boston Celtics" "BOS" 0 0 0).L)
    ∧ ((DraftRow.mk "Alice" "ALI" "Boston Celtics" "Wins" "BOS").PointType = "Losses" →
        (mkPerTeamRow [StandRow.mk "Boston Celtics" "BOS" 0 0 0]
          (DraftRow.mk "Alice" "ALI" "Boston Celtics" "Wins" "BOS")).P =
            (StandRow.mk "Boston Celtics" "BOS" 0 0 0).L
        ∧ (mkPerTeamRow [StandRow.mk "Boston Celtics" "BOS" 0 0 0]
          (DraftRow.mk "Alice" "ALI" "Boston Celtics" "Wins" "BOS")).NP =
            (StandRow.mk "Boston Celtics" "BOS" 0 0 0).W)
    ∧ (mkPerTeamRow [StandRow.mk "Boston Celtics" "BOS" 0 0 0]
        (DraftRow.mk "Alice" "ALI" "Boston Celtics" "Wins" "BOS")).GP =
          (StandRow.mk "Boston Celtics" "BOS" 0 0 0).W +
            (StandRow.mk "Boston Celtics" "BOS" 0 0 0).L :=
  calc_tables_point_classification
    [DraftRow.mk "Alice" "ALI" "Boston Celtics" "Wins" "BOS"]
    [StandRow.mk "Boston Celtics" "BOS" 0 0 0]
    ([PlayerRow.mk "ALI" 0 0 0 0 "BOS"],
      [PerTeamRow.mk "ALI" "Alice" "BOS" "W" 0 0 0 0 0 0 0 "Boston Celtics"])
    (by decide)
    (DraftRow.mk "Alice" "ALI" "Boston Celtics" "Wins" "BOS") (by decide)
    (StandRow.mk "Boston Celtics" "BOS" 0 0 0) (by decide)

/-- C3: for every draft row whose normalized team name is not among the
standings table's normalized team names, `calc_tables` still produces a
per-team row, defaulting every stat to zero:
`W = L = GP = P = NP = 0` and `P% = W% = 0.0` (the lookup
`team_stats.get(team_key)` returns `None` and src/app.py:310–311 defaults;
no exception is raised — the embedding is total). -/
theorem calc_tables_missing_team_defaults
    (draft_df : List DraftRow) (standings : List StandRow)
    (out : List PlayerRow × List PerTeamRow)
    (hout : calc_tables draft_df standings = some out)
    (r : DraftRow) (hr : r ∈ draft_df)
    (hmiss : normalize_team_name r.Team ∉
      standings.map (fun t => normalize_team_name t.Team)) :
    mkPerTeamRow standings r ∈ out.2
    ∧ (mkPerTeamRow standings r).W = 0 ∧ (mkPerTeamRow standings r).L = 0
    ∧ (mkPerTeamRow standings r).GP = 0 ∧ (mkPerTeamRow standings r).P = 0
    ∧ (mkPerTeamRow standings r).NP = 0 ∧ (mkPerTeamRow standings r).Ppct = 0
    ∧ (mkPerTeamRow standings r).Wpct = 0 := by
  have hnone : teamStatsLookup standings (normalize_team_name r.Team) = none := by
    cases hfind : teamStatsLookup standings (normalize_team_name r.Team) with
    | none => rfl
    | some s =>
      exfalso
      apply hmiss
      have hmem : s ∈ standings.reverse := List.mem_of_find?_eq_some hfind
      have hpred := List.find?_some hfind
      rw [List.mem_map]
      refine ⟨s, List.mem_reverse.mp hmem, ?_⟩
      simpa using hpred
  rw [calc_tables] at hout
  split at hout
  case isTrue hnodup =>
    injection hout with hout
    subst hout
    have hne : (draft_df.map (mkPerTeamRow standings)).isEmpty = false := by
      cases draft_df with
      | nil => exact absurd hr (List.not_mem_nil r)
      | cons a l => rfl
    refine ⟨?_, ?_, ?_, ?_, ?_, ?_, ?_, ?_⟩
    · simp only [hne, Bool.false_eq_true, if_false]
      exact (List.mem_insertionSort perTeamSortLe).mpr (List.mem_map_of_mem _ hr)
    all_goals simp [mkPerTeamRow, hnone]
  case isFalse h => exact absurd hout (by simp)

/-- Witness for C3 at a draft row naming a team absent from the standings. -/
theorem calc_tables_missing_team_defaults_witness :
    mkPerTeamRow [StandRow.mk "Boston Celtics" "BOS" 0 0 0]
        (DraftRow.mk "Alice" "ALI" "Gotham Knights" "Wins" "") ∈
      ([PlayerRow.mk "ALI" 0 0 0 0 ""],
        [PerTeamRow.mk "ALI" "Alice" "" "W" 0 0 0 0 0 0 0 "Gotham Knights"]).2
    ∧ (mkPerTeamRow [StandRow.mk "Boston Celtics" "BOS" 0 0 0]
        (DraftRow.mk "Alice" "ALI" "Gotham Knights" "Wins" "")).W = 0
    ∧ (mkPerTeamRow [StandRow.mk "Boston Celtics" "BOS" 0 0 0]
        (DraftRow.mk "Alice" "ALI" "Gotham Knights" "Wins" "")).L = 0
    ∧ (mkPerTeamRow [StandRow.mk "Boston Celtics" "BOS" 0 0 0]
        (DraftRow.mk "Alice" "ALI" "Gotham Knights" "Wins" "")).GP = 0
    ∧ (mkPerTeamRow [StandRow.mk "Boston Celtics" "BOS" 0 0 0]
        (DraftRow.mk "Alice" "ALI" "Gotham Knights" "Wins" "")).P = 0
    ∧ (mkPerTeamRow [StandRow.mk "Boston Celtics" "BOS" 0 0 0]
        (DraftRow.mk "Alice" "ALI" "Gotham Knights" "Wins" "")).NP = 0
    ∧ (mkPerTeamRow [StandRow.mk "Boston Celtics" "BOS" 0 0 0]
        (DraftRow.mk "Alice" "ALI" "Gotham Knights" "Wins" "")).Ppct = 0
    ∧ (mkPerTeamRow [StandRow.mk "Boston Celtics" "BOS" 0 0 0]
        (DraftRow.mk "Alice" "ALI" "Gotham Knights" "Wins" "")).Wpct = 0 :=
  calc_tables_missing_team_defaults
    [DraftRow.mk "Alice" "ALI" "Gotham Knights" "Wins" ""]
    [StandRow.mk "Boston Celtics" "BOS" 0 0 0]
    ([PlayerRow.mk "ALI" 0 0 0 0 ""],
      [PerTeamRow.mk "ALI" "Alice" "" "W" 0 0 0 0 0 0 0 "Gotham Knights"])
    (by decide)
    (DraftRow.mk "Alice" "ALI" "Gotham Knights" "Wins" "") (by decide) (by decide)

/-- C7: `calc_tables` is deterministic — two runs on equal draft tables and
equal standings tables return equal (player table, per-team table) results;
the embedding is a pure function of its two arguments, with no dependence on
any other state. -/
theorem calc_tables_deterministic (d1 d2 : List DraftRow) (s1 s2 : List StandRow)
    (hd : d1 = d2) (hs : s1 = s2) :
    calc_tables d1 s1 = calc_tables d2 s2 := by
  rw [hd, hs]

/-- Witness for C7 at concrete equal inputs. -/
theorem calc_tables_deterministic_witness :
    calc_tables [DraftRow.mk "Alice" "ALI" "Boston Celtics" "Wins" "BOS"]
        [StandRow.mk "Boston Celtics" "BOS" 0 0 0] =
      calc_tables [DraftRow.mk "Alice" "ALI" "Boston Celtics" "Wins" "BOS"]
        [StandRow.mk "Boston Celtics" "BOS" 0 0 0] :=
  calc_tables_deterministic _ _ _ _ rfl rfl

theorem mkPlayerRow_spec (rows : List PerTeamRow) (k : String) :
    (mkPlayerRow rows k).PLYR = k
    ∧ (mkPlayerRow rows k).P = ((rows.filter (fun r => r.PLYR == k)).map (fun r => r.P)).sum
    ∧ (mkPlayerRow rows k).NP = ((rows.filter (fun r => r.PLYR == k)).map (fun r => r.NP)).sum
    ∧ (mkPlayerRow rows k).GP = ((rows.filter (fun r => r.PLYR == k)).map (fun r => r.GP)).sum
    ∧ (mkPlayerRow rows k).Ppct =
        (if (mkPlayerRow rows k).GP = 0 then 0
         else py_round1 (((mkPlayerRow rows k).P : ℚ) / ((mkPlayerRow rows k).GP : ℚ) * 100)) :=
  ⟨rfl, rfl, rfl, rfl, rfl⟩

/-- C2: each row of the player table returned by `calc_tables` aggregates per
roster — its `P`, `NP` and `GP` are the sums of `P`, `NP` and `GP` over the
per-team rows with that `PLYR`, and its `P%` is `round(100 * P / GP, 1)` when
`GP > 0` and `0.0` when `GP = 0`. -/
theorem calc_tables_aggregates_per_roster
    (draft_df : List DraftRow) (standings : List StandRow)
    (out : List PlayerRow × List PerTeamRow)
    (hout : calc_tables draft_df standings = some out)
    (p : PlayerRow) (hp : p ∈ out.1) :
    p.P = ((out.2.filter (fun r => r.PLYR == p.PLYR)).map (fun r => r.P)).sum
    ∧ p.NP = ((out.2.filter (fun r => r.PLYR == p.PLYR)).map (fun r => r.NP)).sum
    ∧ p.GP = ((out.2.filter (fun r => r.PLYR == p.PLYR)).map (fun r => r.GP)).sum
    ∧ (0 < p.GP → p.Ppct = py_round1 (100 * (p.P : ℚ) / (p.GP : ℚ)))
    ∧ (p.GP = 0 → p.Ppct = 0) := by
  rw [calc_tables] at hout
  split at hout
  case isFalse h => exact absurd hout (by simp)
  case isTrue hnodup =>
    injection hout with hout
    subst hout
    by_cases hemp : (draft_df.map (mkPerTeamRow standings)).isEmpty = true
    · simp only [hemp, if_true] at hp
      exact absurd hp (List.not_mem_nil p)
    · have hemp' : (draft_df.map (mkPerTeamRow standings)).isEmpty = false :=
        Bool.eq_false_iff.mpr hemp
      simp only [hemp', Bool.false_eq_true, if_false] at hp ⊢
      obtain ⟨k, hk, rfl⟩ := List.mem_map.mp ((List.mem_insertionSort playerSortLe).mp hp)
      obtain ⟨hPLYR, hP, hNP, hGP, hPpct⟩ :=
        mkPlayerRow_spec (draft_df.map (mkPerTeamRow standings)) k
      have hperm :
          (List.insertionSort perTeamSortLe (draft_df.map (mkPerTeamRow standings))).Perm
            (draft_df.map (mkPerTeamRow standings)) :=
        List.perm_insertionSort _ _
      rw [hPLYR]
      refine ⟨?_, ?_, ?_, ?_, ?_⟩
      · rw [hP]; exact (((hperm.filter _).map _).sum_eq).symm
      · rw [hNP]; exact (((hperm.filter _).map _).sum_eq).symm
      · rw [hGP]; exact (((hperm.filter _).map _).sum_eq).symm
      · intro hgp
        rw [hPpct, if_neg (ne_of_gt hgp)]
        congr 1
        ring
      · intro hgp
        rw [hPpct, if_pos hgp]

/-- Witness for C2 at a one-row draft: the single player row aggregates the
single per-team row. -/
theorem calc_tables_aggregates_per_roster_witness :
    (PlayerRow.mk "ALI" 0 0 0 0 "BOS").P =
      (((([PlayerRow.mk "ALI" 0 0 0 0 "BOS"],
          [PerTeamRow.mk "ALI" "Alice" "BOS" "W" 0 0 0 0 0 0 0 "Boston Celtics"]).2.filter
            (fun r => r.PLYR == (PlayerRow.mk "ALI" 0 0 0 0 "BOS").PLYR)).map
          (fun r => r.P)).sum)
    ∧ (PlayerRow.mk "ALI" 0 0 0 0 "BOS").NP =
      (((([PlayerRow.mk "ALI" 0 0 0 0 "BOS"],
          [PerTeamRow.mk "ALI" "Alice" "BOS" "W" 0 0 0 0 0 0 0 "Boston Celtics"]).2.filter
            (fun r => r.PLYR == (PlayerRow.mk "ALI" 0 0 0 0 "BOS").PLYR)).map
          (fun r => r.NP)).sum)
    ∧ (PlayerRow.mk "ALI" 0 0 0 0 "BOS").GP =
      (((([PlayerRow.mk "ALI" 0 0 0 0 "BOS"],
          [PerTeamRow.mk "ALI" "Alice" "BOS" "W" 0 0 0 0 0 0 0 "Boston Celtics"]).2.filter
            (fun r => r.PLYR == (PlayerRow.mk "ALI" 0 0 0 0 "BOS").PLYR)).map
          (fun r => r.GP)).sum)
    ∧ (0 < (PlayerRow.mk "ALI" 0 0 0 0 "BOS").GP →
        (PlayerRow.mk "ALI" 0 0 0 0 "BOS").Ppct =
          py_round1 (100 * ((PlayerRow.mk "ALI" 0 0 0 0 "BOS").P : ℚ) /
            ((PlayerRow.mk "ALI" 0 0 0 0 "BOS").GP : ℚ)))
    ∧ ((PlayerRow.mk "ALI" 0 0 0 0 "BOS").GP = 0 →
        (PlayerRow.mk "ALI" 0 0 0 0 "BOS").Ppct = 0) :=
  calc_tables_aggregates_per_roster
    [DraftRow.mk "Alice" "ALI" "Boston Celtics" "Wins" "BOS"]
    [StandRow.mk "Boston Celtics" "BOS" 0 0 0]
    ([PlayerRow.mk "ALI" 0 0 0 0 "BOS"],
      [PerTeamRow.mk "ALI" "Alice" "BOS" "W" 0 0 0 0 0 0 0 "Boston Celtics"])
    (by decide) (PlayerRow.mk "ALI" 0 0 0 0 "BOS") (by decide)

/-! ## `upsert_history` (src/app.py:369–392)

The History sheet is modelled as a list of `HistRow`; `upsert_history` is a
store transformer (`ws.clear(); ws.update(values)` replaces the contents),
with the wall clock abstracted into the `dateUTC`/`weekStart` arguments. -/

/-- The `["WeekStart", "PLYR"]` upsert key of src/app.py:383. -/
def histKey (r : HistRow) : String × String := (r.WeekStart, r.PLYR)

/-- The three-key ascending sort of src/app.py:386:
`sort_values(["WeekStart", "PLYR", "DateUTC"])` (pandas string order). -/
def histSortLe (a b : HistRow) : Prop :=
  a.WeekStart < b.WeekStart
  ∨ (a.WeekStart = b.WeekStart ∧
      (a.PLYR < b.PLYR ∨ (a.PLYR = b.PLYR ∧ a.DateUTC ≤ b.DateUTC)))

instance : DecidableRel histSortLe := fun a b => by
  unfold histSortLe; infer_instance

instance : IsTotal HistRow histSortLe where
  total a b := by
    rcases lt_trichotomy a.WeekStart b.WeekStart with h | h | h
    · exact Or.inl (Or.inl h)
    · rcases lt_trichotomy a.PLYR b.PLYR with h2 | h2 | h2
      · exact Or.inl (Or.inr ⟨h, Or.inl h2⟩)
      · rcases le_total a.DateUTC b.DateUTC with h3 | h3
        · exact Or.inl (Or.inr ⟨h, Or.inr ⟨h2, h3⟩⟩)
        · exact Or.inr (Or.inr ⟨h.symm, Or.inr ⟨h2.symm, h3⟩⟩)
      · exact Or.inr (Or.inr ⟨h.symm, Or.inl h2⟩)
    · exact Or.inr (Or.inl h)

instance : IsTrans HistRow histSortLe where
  trans a b c hab hbc := by
    rcases hab with h1 | ⟨e1, h1⟩ <;> rcases hbc with h2 | ⟨e2, h2⟩
    · exact Or.inl (h1.trans h2)
    · exact Or.inl (lt_of_lt_of_le h1 (le_of_eq e2))
    · exact Or.inl (lt_of_le_of_lt (le_of_eq e1) h2)
    · refine Or.inr ⟨e1.trans e2, ?_⟩
      rcases h1 with h1 | ⟨f1, g1⟩ <;> rcases h2 with h2 | ⟨f2, g2⟩
      · exact Or.inl (h1.trans h2)
      · exact Or.inl (lt_of_lt_of_le h1 (le_of_eq f2))
      · exact Or.inl (lt_of_le_of_lt (le_of_eq f1) h2)
      · exact Or.inr ⟨f1.trans f2, g1.trans g2⟩

/-- `DataFrame.drop_duplicates(subset=key, keep="last")`: a row survives
exactly when no later row carries its key. -/
def dropDupLast {α κ : Type} (key : α → κ) [DecidableEq κ] : List α → List α
  | [] => []
  | a :: l =>
    if l.any (fun b => key b == key a) then dropDupLast key l
    else a :: dropDupLast key l

theorem mem_of_mem_dropDupLast {α κ : Type} (key : α → κ) [DecidableEq κ] :
    ∀ (l : List α) (x : α), x ∈ dropDupLast key l → x ∈ l := by
  intro l
  induction l with
  | nil => intro x h; simp [dropDupLast] at h
  | cons a t ih =>
    intro x h
    rw [dropDupLast] at h
    split at h
    · exact List.mem_cons_of_mem a (ih x h)
    · rcases List.mem_cons.mp h with rfl | h2
      · exact List.mem_cons_self _ _
      · exact List.mem_cons_of_mem a (ih x h2)

theorem pairwise_ne_dropDupLast {α κ : Type} (key : α → κ) [DecidableEq κ] :
    ∀ (l : List α), (dropDupLast key l).Pairwise (fun a b => key a ≠ key b) := by
  intro l
  induction l with
  | nil => simp [dropDupLast]
  | cons a t ih =>
    rw [dropDupLast]
    split
    · exact ih
    · rename_i hany
      refine List.pairwise_cons.mpr ⟨?_, ih⟩
      intro b hb
      have hbt := mem_of_mem_dropDupLast key t b hb
      have hne : ¬ ((key b == key a) = true) := by
        intro hc
        exact hany (List.any_eq_true.mpr ⟨b, hbt, hc⟩)
      simp only [beq_iff_eq] at hne
      exact fun h => hne h.symm

theorem exists_mem_dropDupLast {α κ : Type} (key : α → κ) [DecidableEq κ] :
    ∀ (l : List α) (x : α), x ∈ l → ∃ y ∈ dropDupLast key l, key y = key x := by
  intro l
  induction l with
  | nil => intro x h; cases h
  | cons a t ih =>
    intro x h
    rw [dropDupLast]
    split
    · rename_i hany
      rcases List.mem_cons.mp h with rfl | hx
      · obtain ⟨b, hb, hbeq⟩ := List.any_eq_true.mp hany
        simp only [beq_iff_eq] at hbeq
        obtain ⟨y, hy, hky⟩ := ih b hb
        exact ⟨y, hy, hky.trans hbeq⟩
      · exact ih x hx
    · rcases List.mem_cons.mp h with rfl | hx
      · exact ⟨x, List.mem_cons_self _ _, rfl⟩
      · obtain ⟨y, hy, hky⟩ := ih x hx
        exact ⟨y, List.mem_cons_of_mem a hy, hky⟩

theorem dropDupLast_eq_self {α κ : Type} (key : α → κ) [DecidableEq κ] :
    ∀ (l : List α), l.Pairwise (fun a b => key a ≠ key b) → dropDupLast key l = l := by
  intro l
  induction l with
  | nil => intro _; rfl
  | cons a t ih =>
    intro hp
    obtain ⟨ha, hpt⟩ := List.pairwise_cons.mp hp
    have hcond : (t.any (fun b => key b == key a)) = false := by
      rw [List.any_eq_false]
      intro b hb
      simp only [beq_iff_eq]
      exact fun h => (ha b hb) h.symm
    rw [dropDupLast, hcond]
    simp only [Bool.false_eq_true, if_false]
    rw [ih hpt]

theorem eq_of_key_eq_of_pairwise {α κ : Type} (key : α → κ) :
    ∀ (l : List α), l.Pairwise (fun a b => key a ≠ key b) →
      ∀ a ∈ l, ∀ b ∈ l, key a = key b → a = b := by
  intro l
  induction l with
  | nil => intro _ a ha; cases ha
  | cons c t ih =>
    intro hp a ha b hb hk
    obtain ⟨hc, hpt⟩ := List.pairwise_cons.mp hp
    rcases List.mem_cons.mp ha with rfl | hat
    · rcases List.mem_cons.mp hb with rfl | hbt
      · rfl
      · exact absurd hk (hc b hbt)
    · rcases List.mem_cons.mp hb with rfl | hbt
      · exact absurd hk.symm (hc a hat)
      · exact ih hpt a hat b hbt hk

/-- In a list sorted by (`WeekStart`, `PLYR`, `DateUTC`), each row kept by
`drop_duplicates(["WeekStart", "PLYR"], keep="last")` has maximal `DateUTC`
among the rows carrying its key. -/
theorem dropDupLast_max_date :
    ∀ (l : List HistRow), l.Pairwise histSortLe →
      ∀ r' ∈ dropDupLast histKey l, ∀ r'' ∈ l, histKey r'' = histKey r' →
        r''.DateUTC ≤ r'.DateUTC := by
  intro l
  induction l with
  | nil => intro _ r' hr'; simp [dropDupLast] at hr'
  | cons a t ih =>
    intro hp r' hr' r'' hr'' hk
    obtain ⟨ha, hpt⟩ := List.pairwise_cons.mp hp
    rw [dropDupLast] at hr'
    split at hr'
    · rename_i hany
      rcases List.mem_cons.mp hr'' with rfl | hr''t
      · have hr't : r' ∈ t := mem_of_mem_dropDupLast histKey t r' hr'
        have hle := ha r' hr't
        have hw : r''.WeekStart = r'.WeekStart := congrArg Prod.fst hk
        have hpl : r''.PLYR = r'.PLYR := congrArg Prod.snd hk
        rcases hle with h1 | ⟨e1, h2⟩
        · rw [hw] at h1; exact absurd h1 (lt_irrefl _)
        · rcases h2 with h2 | ⟨e2, h3⟩
          · rw [hpl] at h2; exact absurd h2 (lt_irrefl _)
          · exact h3
      · exact ih hpt r' hr' r'' hr''t hk
    · rename_i hany
      rcases List.mem_cons.mp hr' with rfl | hr'd
      · rcases List.mem_cons.mp hr'' with rfl | hr''t
        · exact le_refl _
        · exfalso
          apply hany
          rw [List.any_eq_true]
          exact ⟨r'', hr''t, decide_eq_true hk⟩
      · rcases List.mem_cons.mp hr'' with rfl | hr''t
        · have hr't : r' ∈ t := mem_of_mem_dropDupLast histKey t r' hr'd
          exfalso
          apply hany
          rw [List.any_eq_true]
          exact ⟨r', hr't, decide_eq_true hk.symm⟩
        · exact ih hpt r' hr'd r'' hr''t hk

/-- One snapshotted row (src/app.py:378–380): the player-table row with the
current `DateUTC` and `WeekStart` prepended; the sheet stores text
(`astype(str)` at the write). -/
def mkNewHistRow (dateUTC weekStart : String) (p : PlayerRow) : HistRow :=
  { DateUTC := dateUTC, WeekStart := weekStart, PLYR := p.PLYR,
    P := toString p.P, GP := toString p.GP, NP := toString p.NP,
    Ppct := toString p.Ppct }

/-- `upsert_history` (src/app.py:369–392) as a store transformer: an empty
player table returns without writing; otherwise the prior rows are deduped on
`(WeekStart, PLYR)` keeping the last, the new snapshot rows are appended,
and the result is sorted by `(WeekStart, PLYR, DateUTC)` and deduped again
keeping the last, then written back. -/
def upsert_history (store : List HistRow) (player_table : List PlayerRow)
    (dateUTC weekStart : String) : List HistRow :=
  if player_table.isEmpty then store
  else
    let new_rows := player_table.map (mkNewHistRow dateUTC weekStart)
    if store.isEmpty then new_rows
    else
      let hist := dropDupLast histKey store
      let cur := hist ++ new_rows
      dropDupLast histKey (List.insertionSort histSortLe cur)

/-- C10 (counterexample to the original claim): (a) with an empty prior store
and a player table repeating a `PLYR`, the written store holds two rows with
the same `(WeekStart, PLYR)` key (the `hist.empty` branch of src/app.py:388
skips deduplication); (b) with a prior store holding two rows for one key
whose `DateUTC` values are out of positional order, the row kept is not the
one with the latest `DateUTC` — `drop_duplicates(keep="last")` at
src/app.py:384 keeps the last-positioned prior row per key before the
`DateUTC`-aware dedup ever runs. -/
theorem upsert_history_counterexample :
    (¬ (upsert_history []
          [PlayerRow.mk "AA" 0 0 0 0 "", PlayerRow.mk "AA" 1 0 1 100 ""]
          "2025-01-07 00:00:00" "2025-01-06").Pairwise
        (fun a b => histKey a ≠ histKey b))
    ∧ (∃ r'' ∈ [HistRow.mk "2025-01-02 00:00:00" "2024-12-30" "AA" "1" "1" "0" "100.0",
          HistRow.mk "2025-01-01 00:00:00" "2024-12-30" "AA" "0" "0" "0" "0.0"],
        ∀ r' ∈ upsert_history
            [HistRow.mk "2025-01-02 00:00:00" "2024-12-30" "AA" "1" "1" "0" "100.0",
              HistRow.mk "2025-01-01 00:00:00" "2024-12-30" "AA" "0" "0" "0" "0.0"]
            [PlayerRow.mk "BB" 0 0 0 0 ""] "2025-01-07 00:00:00" "2025-01-06",
          histKey r' = histKey r'' → r'.DateUTC < r''.DateUTC) := by
  constructor
  · decide
  · decide

/-- C10 (amended): when the prior store has at most one row per
`(WeekStart, PLYR)` key (as any store previously written by `upsert_history`
does) and the player table has pairwise-distinct `PLYR` values (as any table
produced by `calc_tables` does): `upsert_history` leaves the store unchanged
when the player table is empty; otherwise the written store has at most one
row per key, each written row is one of the prior or newly snapshotted rows
and has maximal `DateUTC` among those rows carrying its key, and every key
occurring among the prior and new rows still occurs. -/
theorem upsert_history_upsert (store : List HistRow) (player_table : List PlayerRow)
    (dateUTC weekStart : String)
    (hstore : store.Pairwise (fun a b => histKey a ≠ histKey b))
    (hpt : player_table.Pairwise (fun a b => a.PLYR ≠ b.PLYR)) :
    (player_table = [] → upsert_history store player_table dateUTC weekStart = store)
    ∧ (upsert_history store player_table dateUTC weekStart).Pairwise
        (fun a b => histKey a ≠ histKey b)
    ∧ (∀ r' ∈ upsert_history store player_table dateUTC weekStart,
        r' ∈ store ++ player_table.map (mkNewHistRow dateUTC weekStart)
        ∧ ∀ r'' ∈ store ++ player_table.map (mkNewHistRow dateUTC weekStart),
            histKey r'' = histKey r' → r''.DateUTC ≤ r'.DateUTC)
    ∧ (∀ r'' ∈ store ++ player_table.map (mkNewHistRow dateUTC weekStart),
        ∃ r' ∈ upsert_history store player_table dateUTC weekStart,
          histKey r' = histKey r'') := by
  by_cases hpte : player_table.isEmpty = true
  · have hptnil : player_table = [] := List.isEmpty_iff.mp hpte
    subst hptnil
    simp only [upsert_history, List.isEmpty_nil, if_true, List.map_nil, List.append_nil]
    refine ⟨by simp, hstore, ?_, ?_⟩
    · intro r' hr'
      refine ⟨hr', ?_⟩
      intro r'' hr'' hk
      have heq : r'' = r' := eq_of_key_eq_of_pairwise histKey store hstore r'' hr'' r' hr' hk
      rw [heq]
    · intro r'' hr''
      exact ⟨r'', hr'', rfl⟩
  · have hpte' : player_table.isEmpty = false := Bool.eq_false_iff.mpr hpte
    by_cases hste : store.isEmpty = true
    · have hstnil : store = [] := List.isEmpty_iff.mp hste
      subst hstnil
      simp only [upsert_history, hpte', Bool.false_eq_true, if_false, List.isEmpty_nil,
        if_true, List.nil_append]
      refine ⟨?_, ?_, ?_, ?_⟩
      · intro h
        rw [h] at hpte'
        exact absurd hpte' (by simp)
      · refine List.pairwise_map.mpr (hpt.imp ?_)
        intro a b hab
        simp only [histKey, mkNewHistRow, ne_eq, Prod.mk.injEq, not_and]
        exact fun _ => hab
      · intro r' hr'
        refine ⟨hr', ?_⟩
        intro r'' hr'' _
        obtain ⟨p', _, rfl⟩ := List.mem_map.mp hr'
        obtain ⟨p'', _, rfl⟩ := List.mem_map.mp hr''
        exact le_refl _
      · intro r'' hr''
        exact ⟨r'', hr'', rfl⟩
    · have hste' : store.isEmpty = false := Bool.eq_false_iff.mpr hste
      simp only [upsert_history, hpte', hste', Bool.false_eq_true, if_false]
      rw [dropDupLast_eq_self histKey store hstore]
      have hsorted :
          (List.insertionSort histSortLe
            (store ++ player_table.map (mkNewHistRow dateUTC weekStart))).Pairwise
              histSortLe :=
        List.sorted_insertionSort histSortLe _
      have hperm :
          (List.insertionSort histSortLe
            (store ++ player_table.map (mkNewHistRow dateUTC weekStart))).Perm
              (store ++ player_table.map (mkNewHistRow dateUTC weekStart)) :=
        List.perm_insertionSort histSortLe _
      refine ⟨?_, pairwise_ne_dropDupLast histKey _, ?_, ?_⟩
      · intro h
        rw [h] at hpte'
        exact absurd hpte' (by simp)
      · intro r' hr'
        have hr's := mem_of_mem_dropDupLast histKey _ r' hr'
        refine ⟨hperm.mem_iff.mp hr's, ?_⟩
        intro r'' hr'' hk
        exact dropDupLast_max_date _ hsorted r' hr' r'' (hperm.mem_iff.mpr hr'') hk
      · intro r'' hr''
        exact exists_mem_dropDupLast histKey _ r'' (hperm.mem_iff.mpr hr'')

/-- Witness for the amended C10 at a one-row prior store and a one-row player
table with a fresh key. -/
theorem upsert_history_upsert_witness :
    ([PlayerRow.mk "BB" 0 0 0 0 ""] = [] →
      upsert_history [HistRow.mk "2025-01-01 00:00:00" "2024-12-30" "AA" "0" "0" "0" "0.0"]
          [PlayerRow.mk "BB" 0 0 0 0 ""] "2025-01-07 00:00:00" "2025-01-06" =
        [HistRow.mk "2025-01-01 00:00:00" "2024-12-30" "AA" "0" "0" "0" "0.0"])
    ∧ (upsert_history [HistRow.mk "2025-01-01 00:00:00" "2024-12-30" "AA" "0" "0" "0" "0.0"]
        [PlayerRow.mk "BB" 0 0 0 0 ""] "2025-01-07 00:00:00" "2025-01-06").Pairwise
          (fun a b => histKey a ≠ histKey b)
    ∧ (∀ r' ∈ upsert_history
          [HistRow.mk "2025-01-01 00:00:00" "2024-12-30" "AA" "0" "0" "0" "0.0"]
          [PlayerRow.mk "BB" 0 0 0 0 ""] "2025-01-07 00:00:00" "2025-01-06",
        r' ∈ [HistRow.mk "2025-01-01 00:00:00" "2024-12-30" "AA" "0" "0" "0" "0.0"] ++
            [PlayerRow.mk "BB" 0 0 0 0 ""].map (mkNewHistRow "2025-01-07 00:00:00" "2025-01-06")
        ∧ ∀ r'' ∈ [HistRow.mk "2025-01-01 00:00:00" "2024-12-30" "AA" "0" "0" "0" "0.0"] ++
            [PlayerRow.mk "BB" 0 0 0 0 ""].map (mkNewHistRow "2025-01-07 00:00:00" "2025-01-06"),
            histKey r'' = histKey r' → r''.DateUTC ≤ r'.DateUTC)
    ∧ (∀ r'' ∈ [HistRow.mk "2025-01-01 00:00:00" "2024-12-30" "AA" "0" "0" "0" "0.0"] ++
          [PlayerRow.mk "BB" 0 0 0 0 ""].map (mkNewHistRow "2025-01-07 00:00:00" "2025-01-06"),
        ∃ r' ∈ upsert_history
            [HistRow.mk "2025-01-01 00:00:00" "2024-12-30" "AA" "0" "0" "0" "0.0"]
            [PlayerRow.mk "BB" 0 0 0 0 ""] "2025-01-07 00:00:00" "2025-01-06",
          histKey r' = histKey r'') :=
  upsert_history_upsert
    [HistRow.mk "2025-01-01 00:00:00" "2024-12-30" "AA" "0" "0" "0" "0.0"]
    [PlayerRow.mk "BB" 0 0 0 0 ""] "2025-01-07 00:00:00" "2025-01-06"
    (by decide) (by decide)
